import Mathlib

set_option maxHeartbeats 1000000
set_option maxRecDepth 8000

/-!
Shallow embedding of `static_code_analyzer.py` (a Python style checker).

Mapping conventions:
* Python strings are Lean `String` (code-point lists via `.data`); Python's
  per-character operations become `List Char` operations.
* `line.rstrip("\n")` is `rstripNL`, `line.rstrip()` is `rstripWS`,
  `line.strip() == ""` is `isBlank`, `line.lstrip(" ")` is modelled with
  `takeWhile (· == ' ')` for the leading-space count.
* The regular expressions of the source are compiled by hand into character
  scans over `List Char`; each definition notes the regex it embeds.
* `tokenize.generate_tokens` (Python standard library), as used by
  `split_code_and_comment` on a single line, is modelled by the DFA
  `scan`: it finds the start column of the first comment token, reports
  `ScanOut.failed` where the tokenizer raises `tokenize.TokenError`
  (unterminated string literal, end of line inside an open bracket pair or
  after a line-continuation backslash -- CPython 3.12 tokenize wraps all
  such lexical errors in `TokenError`), and `ScanOut.clean` otherwise.
* File input is modelled by `PyFile`: `readResult = none` models a file whose
  `open`/read raises `OSError` or `UnicodeDecodeError`; `FileData.parsed =
  none` models `ast.parse` raising `SyntaxError`.  Fallible Python code
  (`analyze_file`, `main`) becomes `Except String`.
-/

/-- Python `str.strip()` whitespace set (ASCII part), used for `strip`,
`rstrip` and the `\s` class of the header regexes. -/
def isPySpace (c : Char) : Bool :=
  c == ' ' || c == '\t' || c == '\n' || c == '\r' || c == '\x0b' || c == '\x0c'

def isUpperAZ (c : Char) : Bool := 'A' ≤ c && c ≤ 'Z'

def isLowerAZ (c : Char) : Bool := 'a' ≤ c && c ≤ 'z'

def isDigit09 (c : Char) : Bool := '0' ≤ c && c ≤ '9'

/-- Regex class `[a-zA-Z0-9]`. -/
def isAlphaNum (c : Char) : Bool := isUpperAZ c || isLowerAZ c || isDigit09 c

/-- Regex class `[A-Za-z_]` (identifier start in `RE_CLASS`/`RE_DEF`). -/
def isIdentStart (c : Char) : Bool := isUpperAZ c || isLowerAZ c || c == '_'

/-- Regex class `[A-Za-z0-9_]`. -/
def isIdentChar (c : Char) : Bool := isIdentStart c || isDigit09 c

/-- `line.rstrip("\n")`: drop every trailing newline character. -/
def rstripNL (s : String) : String :=
  ⟨(s.data.reverse.dropWhile (· == '\n')).reverse⟩

/-- `s.rstrip()`: drop trailing whitespace. -/
def rstripWS (s : String) : String :=
  ⟨(s.data.reverse.dropWhile isPySpace).reverse⟩

/-- `s.strip() == ""`. -/
def isBlank (s : String) : Bool := s.data.all isPySpace

/-- ASCII lower-casing, modelling `re.IGNORECASE` matching of `todo`. -/
def lowerAscii (c : Char) : Char :=
  if isUpperAZ c then Char.ofNat (c.toNat + 32) else c

/-- Substring search: does `pat` occur (contiguously) in the list? -/
def seek (pat : List Char) : List Char → Bool
  | [] => pat.isEmpty
  | c :: cs => pat.isPrefixOf (c :: cs) || seek pat cs

/-- `RE_TODO.search(comment_part)`: case-insensitive occurrence of `todo`. -/
def containsTodo (s : String) : Bool :=
  seek "todo".data (s.data.map lowerAscii)

/-- Helper for modelling `str.format` with a single named placeholder: split
the character list at the first occurrence of `pat`. -/
def splitOnceAux (pat : List Char) : List Char → Option (List Char × List Char)
  | [] => none
  | c :: cs =>
    if pat.isPrefixOf (c :: cs) then some ([], (c :: cs).drop pat.length)
    else
      match splitOnceAux pat cs with
      | some (a, b) => some (c :: a, b)
      | none => none

/-- `template.format(key=value)` for the rule-catalog templates (each template
contains the placeholder at most once). -/
def pyFormat (template key value : String) : String :=
  match splitOnceAux ("\x7b" ++ key ++ "\x7d").data template.data with
  | some (a, b) => ⟨a ++ value.data ++ b⟩
  | none => template

/-- The `MESSAGES` rule catalog (codes `S001`..`S012`), verbatim from the
source; `\x7b`/`\x7d` are the literal braces of the format placeholders. -/
def MESSAGES : String → String
  | "S001" => "Too long line"
  | "S002" => "Indentation is not a multiple of four"
  | "S003" => "Unnecessary semicolon"
  | "S004" => "At least two spaces required before inline comments"
  | "S005" => "TODO found"
  | "S006" => "More than two blank lines used before this line"
  | "S007" => "Too many spaces after '\x7bkw\x7d'"
  | "S008" => "Class name '\x7bname\x7d' should use CamelCase"
  | "S009" => "Function name '\x7bname\x7d' should use snake_case"
  | "S010" => "Argument name '\x7bname\x7d' should use snake_case"
  | "S011" => "Variable '\x7bname\x7d' in function should use snake_case"
  | "S012" => "Default argument value is mutable"
  | _ => ""

def MAX_LINE_LENGTH : Nat := 79

/-- `is_camel_case`: `re.fullmatch(r"[A-Z][a-zA-Z0-9]*", name)`. -/
def is_camel_case (name : String) : Bool :=
  match name.data with
  | [] => false
  | c :: rest => isUpperAZ c && rest.all isAlphaNum

/-- `is_snake_case`: `re.fullmatch(r"_*[a-z][a-z0-9_]*_*", name)`.  The
trailing `_*` is redundant (`_` already belongs to `[a-z0-9_]`), and the
greedy `_*[a-z]` match forces the maximal leading underscore run, hence the
`dropWhile`. -/
def is_snake_case (name : String) : Bool :=
  match name.data.dropWhile (· == '_') with
  | [] => false
  | c :: rest => isLowerAZ c && rest.all (fun d => isLowerAZ d || isDigit09 d || d == '_')

/-! ## The tokenizer model for `split_code_and_comment`

`scan` consumes one character per step, tracking whether the scan position is
inside a string literal (`St.sgl`/`St.tri` with escape and open-quote
variants) or in normal code (`St.normal` with the open-bracket depth).  It
stops at the first `#` seen in normal state -- the start column of the first
`COMMENT` token -- and degrades to `ScanOut.failed` exactly where
`tokenize.generate_tokens` raises `TokenError` before producing any comment
token.  Bracket kinds are not distinguished (a mismatched closer differing
from its opener would be a `failed` instead of `clean`; both produce the same
splitter output). -/

inductive St
  | normal (d : Nat)
  | open1 (d : Nat) (q : Char)
  | open2 (d : Nat) (q : Char)
  | sgl (d : Nat) (q : Char)
  | sglEsc (d : Nat) (q : Char)
  | tri (d : Nat) (q : Char)
  | triEsc (d : Nat) (q : Char)
  | tri1 (d : Nat) (q : Char)
  | tri2 (d : Nat) (q : Char)

inductive ScanOut
  | comment (col : Nat)
  | clean
  | failed

deriving instance DecidableEq, Repr for ScanOut

inductive StepRes
  | st (s : St)
  | comment
  | fail

def isOpenBracket (c : Char) : Bool := c == '(' || c == '[' || c == '\x7b'

def isCloseBracket (c : Char) : Bool := c == ')' || c == ']' || c == '\x7d'

/-- One character of normal-mode (outside any string literal) tokenizing. -/
def normalStep (d : Nat) (c : Char) : StepRes :=
  if c == '#' then .comment
  else if c == '\'' || c == '"' then .st (.open1 d c)
  else if c == '\\' then .fail
  else if isOpenBracket c then .st (.normal (d + 1))
  else if isCloseBracket c then
    if d == 0 then .fail else .st (.normal (d - 1))
  else .st (.normal d)

/-- One character of tokenizing in an arbitrary state. -/
def charStep (s : St) (c : Char) : StepRes :=
  match s with
  | .normal d => normalStep d c
  | .open1 d q =>
    if c == q then .st (.open2 d q)
    else if c == '\\' then .st (.sglEsc d q)
    else if c == '\n' then .fail
    else .st (.sgl d q)
  | .open2 d q => if c == q then .st (.tri d q) else normalStep d c
  | .sgl d q =>
    if c == q then .st (.normal d)
    else if c == '\\' then .st (.sglEsc d q)
    else if c == '\n' then .fail
    else .st (.sgl d q)
  | .sglEsc d q => .st (.sgl d q)
  | .tri d q =>
    if c == q then .st (.tri1 d q)
    else if c == '\\' then .st (.triEsc d q)
    else .st (.tri d q)
  | .triEsc d q => .st (.tri d q)
  | .tri1 d q =>
    if c == q then .st (.tri2 d q)
    else if c == '\\' then .st (.triEsc d q)
    else .st (.tri d q)
  | .tri2 d q =>
    if c == q then .st (.normal d)
    else if c == '\\' then .st (.triEsc d q)
    else .st (.tri d q)

/-- State at end of line: clean only outside strings with no open bracket
(`open2` is a completed empty string literal). -/
def endSt : St → ScanOut
  | .normal 0 => .clean
  | .normal _ => .failed
  | .open2 0 _ => .clean
  | .open2 _ _ => .failed
  | _ => .failed

def scan : List Char → Nat → St → ScanOut
  | [], _, s => endSt s
  | c :: cs, col, s =>
    match charStep s c with
    | .comment => .comment col
    | .fail => .failed
    | .st s' => scan cs (col + 1) s'

/-- `split_code_and_comment(line)`: `(code_part, comment_part, comment_col)`,
`comment_col = -1` when no real comment token exists on the line (including
the `tokenize.TokenError` fallback). -/
def split_code_and_comment (line : String) : String × String × Int :=
  match scan line.data 0 (.normal 0) with
  | .comment col => (rstripNL ⟨line.data.take col⟩, rstripNL ⟨line.data.drop col⟩, (col : Int))
  | _ => (rstripNL line, "", -1)

/-! ## Line rules -/

def check_s001 (raw_line : String) : Option String :=
  if MAX_LINE_LENGTH < (rstripNL raw_line).length then some "S001" else none

def check_s002 (raw_line : String) : Option String :=
  if isBlank raw_line then none
  else
    let leading_spaces := (raw_line.data.takeWhile (· == ' ')).length
    if leading_spaces % 4 ≠ 0 then some "S002" else none

def check_s003 (code_part : String) : Option String :=
  match (rstripWS code_part).data.reverse with
  | ';' :: _ => some "S003"
  | _ => none

def check_s004 (code_part : String) (comment_col : Int) : Option String :=
  if comment_col = -1 then none
  else if isBlank code_part then none
  else if code_part.data.reverse.take 2 ≠ [' ', ' '] then some "S004"
  else none

def check_s005 (comment_part : String) : Option String :=
  if comment_part ≠ "" ∧ containsTodo comment_part then some "S005" else none

def check_s006 (blank_lines_before : Nat) (raw_line : String) : Option String :=
  if isBlank raw_line = false ∧ 2 < blank_lines_before then some "S006" else none

/-- Format payload of a finding: the `format_kwargs` dict of the source
(`{}`, `{"kw": ...}` or `{"name": ...}`). -/
inductive Fmt
  | none
  | kw (k : String)
  | name (n : String)

deriving instance DecidableEq, Repr for Fmt

/-- `template.format(**fmt) if fmt else template`. -/
def applyFmt (template : String) : Fmt → String
  | .none => template
  | .kw k => pyFormat template "kw" k
  | .name n => pyFormat template "name" n

/-- `RE_CLASS.match` / `RE_DEF.match`: regex
`^(\s*)kw(\s+)([A-Za-z_][A-Za-z0-9_]*)`, returning `(len(group(2)),
group(3))` on success.  The leading `\s*`, the `\s+` and the identifier are
all forced to their maximal runs by the following mandatory pattern. -/
def matchKwHeader (kw : String) (raw : String) : Option (Nat × String) :=
  let afterIndent := raw.data.dropWhile isPySpace
  if kw.data.isPrefixOf afterIndent then
    let rest2 := afterIndent.drop kw.data.length
    let ws := rest2.takeWhile isPySpace
    if ws.length = 0 then none
    else
      match rest2.dropWhile isPySpace with
      | [] => none
      | c :: rest3 =>
        if isIdentStart c then some (ws.length, ⟨c :: rest3.takeWhile isIdentChar⟩)
        else none
  else none

/-- `check_s007_s008_s009`: class headers first, then def headers. -/
def check_s007_s008_s009 (raw_line : String) : List (String × Fmt) :=
  match matchKwHeader "class" raw_line with
  | some (wsLen, name) =>
    (if 1 < wsLen then [("S007", Fmt.kw "class")] else []) ++
    (if is_camel_case name then [] else [("S008", Fmt.name name)])
  | none =>
    match matchKwHeader "def" raw_line with
    | some (wsLen, name) =>
      (if 1 < wsLen then [("S007", Fmt.kw "def")] else []) ++
      (if is_snake_case name then [] else [("S009", Fmt.name name)])
    | none => []

/-- `[(c, {}) for c in single_checks if c is not None]` building block. -/
def optPair (o : Option String) : List (String × Fmt) :=
  match o with
  | some c => [(c, Fmt.none)]
  | none => []

/-- The `uniq` dict of `find_issues_for_line`: `setdefault` keeps the first
pair for each code, in first-occurrence order. -/
def uniqByCode : List (String × Fmt) → List (String × Fmt)
  | [] => []
  | x :: rest => x :: (uniqByCode rest).filter (fun y => y.1 ≠ x.1)

/-- `sorted(..., key=lambda x: x[0])` comparison. -/
def pairLE (a b : String × Fmt) : Prop := a.1 ≤ b.1

instance : DecidableRel pairLE := fun a b => inferInstanceAs (Decidable (a.1 ≤ b.1))

instance : IsTotal (String × Fmt) pairLE := ⟨fun a b => le_total a.1 b.1⟩

instance : IsTrans (String × Fmt) pairLE := ⟨fun _ _ _ h h' => le_trans h h'⟩

/-- The `found` list of `find_issues_for_line`: all per-line checks
evaluated in source order. -/
def lineFindingsRaw (raw_line : String) (blank_lines_before : Nat) :
    List (String × Fmt) :=
  let parts := split_code_and_comment raw_line
  let code_part := parts.1
  let comment_part := parts.2.1
  let comment_col := parts.2.2
  optPair (check_s001 raw_line) ++ optPair (check_s002 raw_line) ++
    optPair (check_s006 blank_lines_before raw_line) ++ optPair (check_s003 code_part) ++
    optPair (check_s004 code_part comment_col) ++ optPair (check_s005 comment_part) ++
    check_s007_s008_s009 raw_line

/-- `find_issues_for_line`: evaluate all per-line checks in source order,
deduplicate by code keeping the first occurrence, sort by code. -/
def find_issues_for_line (raw_line : String) (blank_lines_before : Nat) :
    List (String × Fmt) :=
  List.insertionSort pairLE (uniqByCode (lineFindingsRaw raw_line blank_lines_before))

/-- One reported violation (`@dataclass(frozen=True, order=True)`). -/
structure ReportItem where
  file_path : String
  line_number : Nat
  code : String
  message : String

deriving instance DecidableEq, Repr for ReportItem

/-- The line-scanner loop of `analyze_file`: thread the 1-based line number
and the consecutive-blank-line counter through the physical lines. -/
def scanLines (path : String) : List String → Nat → Nat → List ReportItem
  | [], _, _ => []
  | raw :: rest, line_number, blanks =>
    ((find_issues_for_line raw blanks).map fun cf =>
      { file_path := path, line_number := line_number, code := cf.1,
        message := applyFmt (MESSAGES cf.1) cf.2 }) ++
    scanLines path rest (line_number + 1) (if isBlank raw then blanks + 1 else 0)

/-! ## The syntax-tree model

`Node` embeds the fragment of the Python `ast` node language that the
structural scanner inspects.  `functionDef` carries an `isAsync` flag instead
of a second constructor (the source always treats `ast.FunctionDef` and
`ast.AsyncFunctionDef` identically, both in `skip_types` and in
`function_types`); its parameter lists mirror `node.args`: positional-only,
positional, keyword-only names, `vararg`/`kwarg`, positional defaults and
keyword-only defaults (the latter with `none` entries for keyword-only
parameters without a default, as in `ast`). -/

inductive Node
  | module (body : List Node)
  | functionDef (name : String) (posonlyargs args kwonlyargs : List String)
      (vararg kwarg : Option String) (defaults : List Node)
      (kw_defaults : List (Option Node)) (body : List Node) (lineno : Nat)
      (isAsync : Bool)
  | classDef (name : String) (body : List Node) (lineno : Nat)
  | assign (targets : List Node) (value : Node) (lineno : Nat)
  | annAssign (target : Node) (ann : Node) (value : Option Node) (lineno : Nat)
  | augAssign (target : Node) (value : Node) (lineno : Nat)
  | exprStmt (value : Node)
  | ifStmt (test : Node) (body orelse : List Node)
  | passStmt
  | nameE (id : String)
  | tupleE (elts : List Node)
  | listE (elts : List Node)
  | dictE (elts : List Node)
  | setE (elts : List Node)
  | lambdaE (body : Node)
  | attributeE (value : Node) (attr : String)
  | subscriptE (value : Node) (slice : Node)
  | starredE (value : Node)
  | constE

/-- `ast.iter_child_nodes`, flattened: for `functionDef` the single
`arguments` child node (which itself contains no statements) is expanded in
place into its default-value expressions, and decorator/annotation
expressions (which cannot contain statements either) are omitted; for
`classDef` base-class/decorator expressions are likewise omitted; `dictE`
lists keys and values together.  None of the omissions can contain a
statement node, so the visited assignment statements are exactly those of
the real traversal. -/
def children : Node → List Node
  | .module body => body
  | .functionDef _ _ _ _ _ _ defaults kw_defaults body _ _ =>
    defaults ++ kw_defaults.filterMap id ++ body
  | .classDef _ body _ => body
  | .assign targets value _ => targets ++ [value]
  | .annAssign target ann value _ => target :: ann :: value.toList
  | .augAssign target value _ => [target, value]
  | .exprStmt value => [value]
  | .ifStmt test body orelse => test :: (body ++ orelse)
  | .passStmt => []
  | .nameE _ => []
  | .tupleE elts => elts
  | .listE elts => elts
  | .dictE elts => elts
  | .setE elts => elts
  | .lambdaE body => [body]
  | .attributeE value _ => [value]
  | .subscriptE value slice => [value, slice]
  | .starredE value => [value]
  | .constE => []

/-- `isinstance(node, skip_types)` with
`skip_types = (FunctionDef, AsyncFunctionDef, ClassDef, Lambda)`. -/
def isScopeNode : Node → Bool
  | .functionDef _ _ _ _ _ _ _ _ _ _ _ => true
  | .classDef _ _ _ => true
  | .lambdaE _ => true
  | _ => false

/-! Size measure for termination of the tree traversals (the derived
`SizeOf` of the nested inductive is not executable, so we use our own). -/

mutual

def nodeSize : Node → Nat
  | .module body => 1 + nodeSizeList body
  | .functionDef _ _ _ _ _ _ defaults kw_defaults body _ _ =>
    1 + nodeSizeList defaults + nodeSizeOptList kw_defaults + nodeSizeList body
  | .classDef _ body _ => 1 + nodeSizeList body
  | .assign targets value _ => 1 + nodeSizeList targets + nodeSize value
  | .annAssign target ann value _ => 1 + nodeSize target + nodeSize ann + nodeSizeOpt value
  | .augAssign target value _ => 1 + nodeSize target + nodeSize value
  | .exprStmt value => 1 + nodeSize value
  | .ifStmt test body orelse => 1 + nodeSize test + nodeSizeList body + nodeSizeList orelse
  | .passStmt => 1
  | .nameE _ => 1
  | .tupleE elts => 1 + nodeSizeList elts
  | .listE elts => 1 + nodeSizeList elts
  | .dictE elts => 1 + nodeSizeList elts
  | .setE elts => 1 + nodeSizeList elts
  | .lambdaE body => 1 + nodeSize body
  | .attributeE value _ => 1 + nodeSize value
  | .subscriptE value slice => 1 + nodeSize value + nodeSize slice
  | .starredE value => 1 + nodeSize value
  | .constE => 1

def nodeSizeOpt : Option Node → Nat
  | none => 0
  | some n => nodeSize n

def nodeSizeList : List Node → Nat
  | [] => 0
  | n :: ns => nodeSize n + nodeSizeList ns

def nodeSizeOptList : List (Option Node) → Nat
  | [] => 0
  | o :: os => nodeSizeOpt o + nodeSizeOptList os

end

theorem nodeSize_pos (n : Node) : 0 < nodeSize n := by
  cases n <;> simp [nodeSize]

theorem nodeSizeList_append (a b : List Node) :
    nodeSizeList (a ++ b) = nodeSizeList a + nodeSizeList b := by
  induction a with
  | nil => simp [nodeSizeList]
  | cons n ns ih => simp [nodeSizeList, ih]; omega

theorem nodeSizeList_filterMap_le (l : List (Option Node)) :
    nodeSizeList (l.filterMap id) ≤ nodeSizeOptList l := by
  induction l with
  | nil => simp [nodeSizeList, nodeSizeOptList]
  | cons o os ih =>
    cases o with
    | none => simpa [List.filterMap_cons, nodeSizeOptList, nodeSizeOpt] using ih
    | some n =>
      simp [List.filterMap_cons, nodeSizeOptList, nodeSizeOpt, nodeSizeList]
      omega

theorem nodeSizeList_filter_le (p : Node → Bool) (l : List Node) :
    nodeSizeList (l.filter p) ≤ nodeSizeList l := by
  induction l with
  | nil => simp [nodeSizeList]
  | cons n ns ih =>
    by_cases h : p n = true
    · simp [List.filter_cons, h, nodeSizeList]; omega
    · simp [List.filter_cons, h, nodeSizeList]
      have := nodeSize_pos n
      omega

theorem nodeSizeList_reverse (l : List Node) : nodeSizeList l.reverse = nodeSizeList l := by
  induction l with
  | nil => rfl
  | cons n ns ih => simp [List.reverse_cons, nodeSizeList_append, ih, nodeSizeList]; omega

theorem nodeSizeList_toList (o : Option Node) : nodeSizeList o.toList = nodeSizeOpt o := by
  cases o <;> simp [Option.toList, nodeSizeList, nodeSizeOpt]

theorem nodeSizeList_children_lt (n : Node) : nodeSizeList (children n) < nodeSize n := by
  cases n with
  | module body => simp [children, nodeSize]
  | functionDef name pos args kwonly va kw dfs kwdfs body ln async =>
    simp [children, nodeSize, nodeSizeList_append]
    have := nodeSizeList_filterMap_le kwdfs
    try omega
  | classDef name body ln => simp [children, nodeSize]
  | assign targets value ln =>
    simp [children, nodeSize, nodeSizeList_append, nodeSizeList]
    try omega
  | annAssign target ann value ln =>
    simp [children, nodeSize, nodeSizeList, nodeSizeList_toList]
    try omega
  | augAssign target value ln => simp [children, nodeSize, nodeSizeList]; try omega
  | exprStmt value => simp [children, nodeSize, nodeSizeList]
  | ifStmt test body orelse =>
    simp [children, nodeSize, nodeSizeList, nodeSizeList_append]
    try omega
  | passStmt => simp [children, nodeSize, nodeSizeList]
  | nameE id => simp [children, nodeSize, nodeSizeList]
  | tupleE elts => simp [children, nodeSize]
  | listE elts => simp [children, nodeSize]
  | dictE elts => simp [children, nodeSize]
  | setE elts => simp [children, nodeSize]
  | lambdaE body => simp [children, nodeSize, nodeSizeList]; try omega
  | attributeE value attr => simp [children, nodeSize, nodeSizeList]; try omega
  | subscriptE value slice => simp [children, nodeSize, nodeSizeList]; try omega
  | starredE value => simp [children, nodeSize, nodeSizeList]; try omega
  | constE => simp [children, nodeSize, nodeSizeList]

/-- `ast.walk`: breadth-first traversal over all nodes (deque seeded with the
root; `popleft` a node, yield it, `extend` with all its children). -/
def walkBFS : List Node → List Node
  | [] => []
  | n :: queue => n :: walkBFS (queue ++ children n)
termination_by queue => nodeSizeList queue
decreasing_by
  simp [nodeSizeList, nodeSizeList_append]
  have := nodeSizeList_children_lt n
  omega

/-- `walk_without_nested_scopes`: the stack loop of the source, with the top
of the Python stack (its last element) as the head of the list -- so the
initial `list(reversed(nodes))` is `nodes` itself, popping takes the head,
and appending the children `c1 .. ck` (skipping scope nodes) makes `ck` the
next top, i.e. prepends the filtered children reversed.  Note that the
`isinstance(child, skip_types)` filter guards only the pushes of children:
the nodes of the initial list are popped, yielded and expanded without any
filtering. -/
def wwnsLoop : List Node → List Node
  | [] => []
  | n :: stack => n :: wwnsLoop (((children n).filter (fun c => !isScopeNode c)).reverse ++ stack)
termination_by stack => nodeSizeList stack
decreasing_by
  simp [nodeSizeList, nodeSizeList_append, nodeSizeList_reverse]
  have h1 := nodeSizeList_filter_le (fun c => !isScopeNode c) (children n)
  have h2 := nodeSizeList_children_lt n
  omega

def walk_without_nested_scopes (nodes : List Node) : List Node := wwnsLoop nodes

/-! `extract_assigned_names`: plain name targets and (recursively) the
elements of tuple/list destructuring targets; every other target kind
contributes nothing. -/

mutual

def extract_assigned_names : Node → List String
  | .nameE id => [id]
  | .tupleE elts => extractNamesList elts
  | .listE elts => extractNamesList elts
  | _ => []

def extractNamesList : List Node → List String
  | [] => []
  | e :: es => extract_assigned_names e ++ extractNamesList es

end

/-- `isinstance(default, (ast.List, ast.Dict, ast.Set))`. -/
def isMutableLiteral : Node → Bool
  | .listE _ => true
  | .dictE _ => true
  | .setE _ => true
  | _ => false

/-- The S010 findings of one definition: one per parameter name failing the
snake check, at the definition's line. -/
def s010Items (path : String) (ln : Nat) (argNames : List String) : List ReportItem :=
  argNames.filterMap fun a =>
    if is_snake_case a then none
    else some { file_path := path, line_number := ln, code := "S010",
                message := pyFormat (MESSAGES "S010") "name" a }

/-- The S012 finding of one definition (at most one, at the definition's
line). -/
def s012Items (path : String) (ln : Nat) (mutable_default : Bool) : List ReportItem :=
  if mutable_default then
    [{ file_path := path, line_number := ln, code := "S012", message := MESSAGES "S012" }]
  else []

/-- The S011 findings contributed by one yielded statement of the body walk:
`Assign` uses its target list, `AnnAssign`/`AugAssign` their single target;
every extracted name failing the snake check yields one finding at the
statement's line. -/
def s011Targets (path : String) (ln : Nat) (targets : List Node) : List ReportItem :=
  targets.flatMap fun t =>
    (extract_assigned_names t).filterMap fun nm =>
      if is_snake_case nm then none
      else some { file_path := path, line_number := ln, code := "S011",
                  message := pyFormat (MESSAGES "S011") "name" nm }

def s011ItemsOf (path : String) (inner : Node) : List ReportItem :=
  match inner with
  | .assign targets _ ln => s011Targets path ln targets
  | .annAssign target _ _ ln => s011Targets path ln [target]
  | .augAssign target _ ln => s011Targets path ln [target]
  | _ => []

/-- The body of the `for node in ast.walk(tree)` loop of `analyze_ast_issues`
for one node: non-definition nodes contribute nothing; a definition node
contributes its S010, S012 and S011 findings in that order. -/
def funcItems (path : String) : Node → List ReportItem
  | .functionDef _ pos args kwonly va kw dfs kwdfs body ln _ =>
    let argNames := pos ++ args ++ kwonly ++ va.toList ++ kw.toList
    let mutable_default :=
      (dfs.map some ++ kwdfs).any fun o =>
        match o with
        | some d => isMutableLiteral d
        | none => false
    s010Items path ln argNames ++ s012Items path ln mutable_default ++
      (walk_without_nested_scopes body).flatMap (s011ItemsOf path)
  | _ => []

/-- The text stream and parse outcome of a readable file: `lines` as the
Python text iterator yields them (each including its trailing newline,
except possibly the last), `parsed` the `ast.parse` result (`none` models
`SyntaxError`). -/
structure FileData where
  lines : List String
  parsed : Option Node

/-- A path in the scanned tree; `readResult = none` models a file whose
open/read raises `OSError` or `UnicodeDecodeError`. -/
structure PyFile where
  path : String
  readResult : Option FileData

/-- `analyze_ast_issues`: its own `open`/`ast.parse` with
`except (SyntaxError, OSError, UnicodeDecodeError): return []`. -/
def analyze_ast_issues (path : String) (readResult : Option FileData) : List ReportItem :=
  match readResult with
  | none => []
  | some d =>
    match d.parsed with
    | none => []
    | some tree => (walkBFS [tree]).flatMap (funcItems path)

/-- `analyze_file`: the unguarded `open` raises for an unreadable or
non-decodable file (modelled as `Except.error`); otherwise the line scanner
runs over the lines and the structural findings are appended. -/
def analyze_file (f : PyFile) : Except String (List ReportItem) :=
  match f.readResult with
  | none => .error f.path
  | some d => .ok (scanLines f.path d.lines 1 0 ++ analyze_ast_issues f.path f.readResult)

/-- The collection loop of `main`: `all_items.extend(analyze_file(p))` over
the (already path-sorted) files; an exception from `analyze_file`
propagates and aborts the whole run. -/
def analyzeAll : List PyFile → Except String (List ReportItem)
  | [] => .ok []
  | f :: fs =>
    match analyze_file f with
    | .error e => .error e
    | .ok items =>
      match analyzeAll fs with
      | .error e => .error e
      | .ok rest => .ok (items ++ rest)

/-- The findings one readable file contributes (`[]` for a file that would
raise). -/
def fileFindings (f : PyFile) : List ReportItem :=
  match analyze_file f with
  | .ok l => l
  | .error _ => []

/-- The `order=True` dataclass comparison of `ReportItem`: lexicographic
over the field tuple `(file_path, line_number, code, message)`. -/
def itemKey (r : ReportItem) : Lex (String × Lex (Nat × Lex (String × String))) :=
  toLex (r.file_path, toLex (r.line_number, toLex (r.code, r.message)))

def itemLE (a b : ReportItem) : Prop := itemKey a ≤ itemKey b

instance : DecidableRel itemLE := fun a b => inferInstanceAs (Decidable (itemKey a ≤ itemKey b))

instance : IsTotal ReportItem itemLE := ⟨fun a b => le_total (itemKey a) (itemKey b)⟩

instance : IsTrans ReportItem itemLE := ⟨fun _ _ _ h h' => le_trans h h'⟩

/-- `sorted(all_items)` (a stable sort under a total order whose ties are
fully equal records, so any sorted rearrangement is the Python one). -/
def sortedReport (items : List ReportItem) : List ReportItem :=
  List.insertionSort itemLE items

/-- `f"\x7bitem.file_path\x7d: Line \x7bitem.line_number\x7d: \x7bitem.code\x7d \x7bitem.message\x7d"`. -/
def renderItem (r : ReportItem) : String :=
  r.file_path ++ ": Line " ++ toString r.line_number ++ ": " ++ r.code ++ " " ++ r.message

/-- `main` after file discovery: collect, sort globally, render. -/
def runReport (files : List PyFile) : Except String (List String) :=
  match analyzeAll files with
  | .error e => .error e
  | .ok items => .ok ((sortedReport items).map renderItem)

/-! ## Claim C6: the naming classifiers -/

/-- The spec's upper-camel convention: starts with an uppercase letter,
followed by zero or more letters/digits only. -/
def CamelSpec (s : String) : Prop :=
  ∃ c rest, s.data = c :: rest ∧ isUpperAZ c = true ∧ ∀ d ∈ rest, isAlphaNum d = true

/-- The spec's snake convention: zero or more leading underscores, then a
lowercase letter, then zero or more lowercase letters/digits/underscores,
then zero or more trailing underscores. -/
def SnakeSpec (s : String) : Prop :=
  ∃ us c mid ts, s.data = us ++ c :: (mid ++ ts) ∧ (∀ u ∈ us, u = '_') ∧
    isLowerAZ c = true ∧
    (∀ d ∈ mid, isLowerAZ d = true ∨ isDigit09 d = true ∨ d = '_') ∧
    (∀ t ∈ ts, t = '_')

theorem isLowerAZ_ne_underscore {c : Char} (h : isLowerAZ c = true) : c ≠ '_' := by
  intro heq
  subst heq
  exact absurd h (by decide)

theorem dropWhile_underscore_eq (us : List Char) (c : Char) (r : List Char)
    (hu : ∀ u ∈ us, u = '_') (hc : c ≠ '_') :
    (us ++ c :: r).dropWhile (· == '_') = c :: r := by
  induction us with
  | nil =>
    simp only [List.nil_append, List.dropWhile_cons]
    simp [hc]
  | cons u us ih =>
    have hu0 : u = '_' := hu u (by simp)
    simp only [List.cons_append, List.dropWhile_cons, hu0]
    simpa using ih fun v hv => hu v (by simp [hv])

theorem is_camel_case_iff (s : String) : is_camel_case s = true ↔ CamelSpec s := by
  rcases hd : s.data with _ | ⟨c, rest⟩
  · simp [is_camel_case, hd, CamelSpec]
  · simp only [is_camel_case, hd, CamelSpec, List.all_eq_true, Bool.and_eq_true, List.cons.injEq]
    constructor
    · rintro ⟨h1, h2⟩
      exact ⟨c, rest, ⟨rfl, rfl⟩, h1, h2⟩
    · rintro ⟨c', rest', ⟨rfl, rfl⟩, h1, h2⟩
      exact ⟨h1, h2⟩

theorem is_snake_case_iff (s : String) : is_snake_case s = true ↔ SnakeSpec s := by
  constructor
  · intro h
    rcases hd : s.data.dropWhile (· == '_') with _ | ⟨c, rest⟩
    · rw [is_snake_case, hd] at h
      exact absurd h (by decide)
    · rw [is_snake_case, hd] at h
      simp only [Bool.and_eq_true, List.all_eq_true] at h
      refine ⟨s.data.takeWhile (· == '_'), c, rest, [], ?_, ?_, h.1, ?_, by simp⟩
      · rw [List.append_nil, ← hd, List.takeWhile_append_dropWhile]
      · intro u hu
        have := List.mem_takeWhile_imp hu
        simpa using this
      · intro d hdm
        have := h.2 d hdm
        simpa [Bool.or_eq_true, or_assoc] using this
  · rintro ⟨us, c, mid, ts, hdecomp, hu, hc, hmid, hts⟩
    rw [is_snake_case, hdecomp, dropWhile_underscore_eq us c (mid ++ ts) hu (isLowerAZ_ne_underscore hc)]
    simp only [Bool.and_eq_true, List.all_eq_true]
    refine ⟨hc, ?_⟩
    intro d hdm
    rcases List.mem_append.mp hdm with hm | ht
    · rcases hmid d hm with h1 | h1 | h1 <;> simp [h1]
    · simp [hts d ht]

/-- C6: the upper-camel and snake classifiers are exactly the spec's
conventions, and they decide the spec's example identifiers as stated:
`Foo`, `FooBar2` pass upper-camel while `foo`, `Foo_Bar`, `2Foo` fail, and
`foo`, `_foo`, `__init__`, `foo_bar_2` pass snake while `Foo`, `fooBar`,
`2foo` fail. -/
theorem c6_naming_classifiers :
    (∀ s, is_camel_case s = true ↔ CamelSpec s) ∧
    (∀ s, is_snake_case s = true ↔ SnakeSpec s) ∧
    (["Foo", "FooBar2"].all is_camel_case = true) ∧
    (["foo", "Foo_Bar", "2Foo"].all (fun s => !is_camel_case s) = true) ∧
    (["foo", "_foo", "__init__", "foo_bar_2"].all is_snake_case = true) ∧
    (["Foo", "fooBar", "2foo"].all (fun s => !is_snake_case s) = true) :=
  ⟨is_camel_case_iff, is_snake_case_iff, by decide, by decide, by decide, by decide⟩

/-! ## Claim C8: per-line deduplication and ordering -/

theorem uniqByCode_codes_nodup (l : List (String × Fmt)) :
    ((uniqByCode l).map Prod.fst).Nodup := by
  induction l with
  | nil => simp [uniqByCode]
  | cons x rest ih =>
    simp only [uniqByCode, List.map_cons, List.nodup_cons]
    constructor
    · intro hmem
      rcases List.mem_map.mp hmem with ⟨y, hy, hk⟩
      have hne := (List.mem_filter.mp hy).2
      simp only [ne_eq, decide_not, Bool.not_eq_true', decide_eq_false_iff_not] at hne
      exact hne hk
    · exact ((List.filter_sublist _).map Prod.fst).nodup ih

/-- C8: for every physical line and blank-run state, the per-line finding
list contains at most one finding per rule code (the mapped code list has no
duplicates) and is sorted in ascending order of rule code. -/
theorem c8_per_line_codes_sorted_nodup (raw_line : String) (blank_lines_before : Nat) :
    List.Sorted (· ≤ ·) ((find_issues_for_line raw_line blank_lines_before).map Prod.fst) ∧
    List.Nodup ((find_issues_for_line raw_line blank_lines_before).map Prod.fst) := by
  constructor
  · have hs : List.Sorted pairLE (find_issues_for_line raw_line blank_lines_before) :=
      List.sorted_insertionSort pairLE _
    exact List.pairwise_map.mpr hs
  · have hperm : List.Perm (find_issues_for_line raw_line blank_lines_before)
        (uniqByCode (lineFindingsRaw raw_line blank_lines_before)) :=
      List.perm_insertionSort pairLE _
    exact ((hperm.map Prod.fst).nodup_iff).mpr (uniqByCode_codes_nodup _)

/-! ## Claim C3: the `def myFunction(ArgOne):` file

A file whose whole content is the single header line is not a syntactically
complete module (`ast.parse` raises `SyntaxError`: the definition has no
body), so the structural scanner contributes nothing; `parsed := none`
records that outcome. -/

def c3File : PyFile :=
  { path := "f.py", readResult := some { lines := ["def myFunction(ArgOne):"], parsed := none } }

theorem c3_counterexample :
    analyze_file c3File =
      Except.ok [{ file_path := "f.py", line_number := 1, code := "S009",
                   message := "Function name 'myFunction' should use snake_case" }] ∧
    ¬ "S010" ∈ (fileFindings c3File).map ReportItem.code := by
  constructor
  · rfl
  · decide

/-- C3 (amended): analyzing the file whose entire content is the single line
`def myFunction(ArgOne):` produces exactly one finding, S009 at line 1; S010
is not produced, because the lone header is not a parseable module (the
definition lacks a body, `ast.parse` raises `SyntaxError`) and the
structural scanner therefore yields nothing. -/
theorem c3_single_header_file :
    fileFindings c3File =
      [{ file_path := "f.py", line_number := 1, code := "S009",
         message := "Function name 'myFunction' should use snake_case" }] ∧
    analyze_ast_issues "f.py" (some { lines := ["def myFunction(ArgOne):"], parsed := none }) = [] := by
  constructor
  · rfl
  · rfl

/-! ## Claim C2: unreadable files -/

def c2BadFile : PyFile := { path := "bad.py", readResult := none }

def c2GoodFile : PyFile := { path := "good.py", readResult := some { lines := [], parsed := none } }

theorem c2_counterexample :
    analyzeAll [c2GoodFile, c2BadFile] = Except.error "bad.py" ∧
    analyze_file c2BadFile = Except.error "bad.py" :=
  ⟨rfl, rfl⟩

/-- C2 (amended): the structural scanner alone is protected -- it returns no
findings for a file that cannot be read or parsed -- but the line scanner's
file open in `analyze_file` is unguarded, so an unreadable or non-decodable
file raises there and aborts the overall run instead of silently
contributing nothing. -/
theorem c2_error_handling :
    (∀ path, analyze_ast_issues path none = []) ∧
    (∀ path d, d.parsed = none → analyze_ast_issues path (some d) = []) ∧
    (∀ files, ∀ f ∈ files, f.readResult = none → ∃ e, analyzeAll files = Except.error e) := by
  refine ⟨fun path => rfl, fun path d hd => by simp [analyze_ast_issues, hd], ?_⟩
  intro files
  induction files with
  | nil => intro f hf; simp at hf
  | cons g fs ih =>
    intro f hf hnone
    rcases List.mem_cons.mp hf with rfl | hmem
    · exact ⟨f.path, by simp [analyzeAll, analyze_file, hnone]⟩
    · rcases ih f hmem hnone with ⟨e, he⟩
      cases hg : analyze_file g with
      | error eg => exact ⟨eg, by simp [analyzeAll, hg]⟩
      | ok items => exact ⟨e, by simp [analyzeAll, hg, he]⟩

theorem c2_witness :
    analyze_ast_issues "q.py" (some { lines := ["strange bytes"], parsed := none }) = [] ∧
    (∃ e, analyzeAll [c2GoodFile, c2BadFile] = Except.error e) :=
  ⟨c2_error_handling.2.1 "q.py" { lines := ["strange bytes"], parsed := none } rfl,
   c2_error_handling.2.2 [c2GoodFile, c2BadFile] c2BadFile
     (List.mem_cons_of_mem c2GoodFile (List.mem_cons_self c2BadFile [])) rfl⟩

/-! ## Claim C1: the nested-scope boundary of the S011 walk

The failing input is the file

  def outer():
      def inner():
          BadName = 1

`inner` is a direct element of `outer`'s body list, so it enters the
traversal stack of `walk_without_nested_scopes` as a root: it is popped and
expanded, the `isinstance(child, skip_types)` filter never having applied to
it, and the assignment `BadName = 1` is therefore yielded -- and reported --
while analyzing `outer`, then again when `ast.walk` visits `inner`. -/

def c1Assign : Node := .assign [.nameE "BadName"] .constE 3

def c1Inner : Node := .functionDef "inner" [] [] [] none none [] [] [c1Assign] 2 false

def c1Outer : Node := .functionDef "outer" [] [] [] none none [] [] [c1Inner] 1 false

def c1Tree : Node := .module [c1Outer]

/-- C1 (evaluation at the failing input): the walk of `outer`'s body yields
the assignment that belongs to `inner`'s scope, so the S011 finding for
`BadName` is produced twice -- once attributed to the traversal of `outer`
and once to that of `inner` -- where the claim requires it to appear only
once, from visiting `inner` itself. -/
theorem c1_code_eval :
    walk_without_nested_scopes [c1Inner] = [c1Inner, c1Assign, .constE, .nameE "BadName"] ∧
    analyze_ast_issues "bug.py"
        (some { lines := ["def outer():\n", "    def inner():\n", "        BadName = 1\n"],
                parsed := some c1Tree }) =
      [{ file_path := "bug.py", line_number := 3, code := "S011",
         message := "Variable 'BadName' in function should use snake_case" },
       { file_path := "bug.py", line_number := 3, code := "S011",
         message := "Variable 'BadName' in function should use snake_case" }] := by
  constructor
  · simp [walk_without_nested_scopes, wwnsLoop, children, isScopeNode, c1Inner, c1Assign]
  · simp [analyze_ast_issues, walkBFS, children, funcItems, walk_without_nested_scopes,
      wwnsLoop, isScopeNode, s010Items, s012Items, s011ItemsOf, s011Targets, extract_assigned_names,
      extractNamesList, is_snake_case, c1Tree, c1Outer, c1Inner, c1Assign]
    rfl

/-! ## Claim C4: exactly one S012 per definition -/

theorem mem_s010Items_code {path : String} {ln : Nat} {argNames : List String}
    {r : ReportItem} (h : r ∈ s010Items path ln argNames) : r.code = "S010" := by
  simp only [s010Items, List.mem_filterMap] at h
  rcases h with ⟨a, _, ha⟩
  split at ha
  · simp at ha
  · rw [Option.some.injEq] at ha
    subst ha
    rfl

theorem mem_s011Targets_code {path : String} {ln : Nat} {targets : List Node}
    {r : ReportItem} (h : r ∈ s011Targets path ln targets) :
    r.code = "S011" ∧ r.line_number = ln := by
  simp only [s011Targets, List.mem_flatMap, List.mem_filterMap] at h
  rcases h with ⟨t, _, nm, _, ha⟩
  split at ha
  · simp at ha
  · rw [Option.some.injEq] at ha
    subst ha
    exact ⟨rfl, rfl⟩

theorem mem_s011ItemsOf_code {path : String} {inner : Node} {r : ReportItem}
    (h : r ∈ s011ItemsOf path inner) : r.code = "S011" := by
  unfold s011ItemsOf at h
  split at h
  · exact (mem_s011Targets_code h).1
  · exact (mem_s011Targets_code h).1
  · exact (mem_s011Targets_code h).1
  · simp at h

theorem mem_s012Items {path : String} {ln : Nat} {flag : Bool} {r : ReportItem}
    (h : r ∈ s012Items path ln flag) :
    r = { file_path := path, line_number := ln, code := "S012", message := MESSAGES "S012" } := by
  unfold s012Items at h
  split at h
  · simpa using h
  · simp at h

/-- C4: for every function or method definition node, the analysis of that
node produces exactly one S012 finding when some positional or keyword-only
default is a list/dict/set literal and none otherwise, and every S012
finding it produces sits at the definition's line. -/
theorem c4_mutable_default_once (path name : String) (pos args kwonly : List String)
    (va kw : Option String) (dfs : List Node) (kwdfs : List (Option Node))
    (body : List Node) (ln : Nat) (async : Bool) :
    (((∃ d ∈ dfs, isMutableLiteral d = true) ∨
      (∃ o ∈ kwdfs, ∃ d, o = some d ∧ isMutableLiteral d = true)) →
      (funcItems path (.functionDef name pos args kwonly va kw dfs kwdfs body ln async)).countP
        (fun r => r.code == "S012") = 1) ∧
    ((¬ ((∃ d ∈ dfs, isMutableLiteral d = true) ∨
      (∃ o ∈ kwdfs, ∃ d, o = some d ∧ isMutableLiteral d = true))) →
      (funcItems path (.functionDef name pos args kwonly va kw dfs kwdfs body ln async)).countP
        (fun r => r.code == "S012") = 0) ∧
    (∀ r ∈ funcItems path (.functionDef name pos args kwonly va kw dfs kwdfs body ln async),
        r.code = "S012" → r.line_number = ln) := by
  have hflag : ((dfs.map some ++ kwdfs).any fun o =>
      match o with
      | some d => isMutableLiteral d
      | none => false) = true ↔
      ((∃ d ∈ dfs, isMutableLiteral d = true) ∨
       (∃ o ∈ kwdfs, ∃ d, o = some d ∧ isMutableLiteral d = true)) := by
    rw [List.any_eq_true]
    constructor
    · rintro ⟨o, ho, hp⟩
      rcases List.mem_append.mp ho with hm | hm
      · rcases List.mem_map.mp hm with ⟨d, hd, rfl⟩
        exact Or.inl ⟨d, hd, hp⟩
      · cases o with
        | none => simp at hp
        | some d => exact Or.inr ⟨some d, hm, d, rfl, hp⟩
    · rintro (⟨d, hd, hp⟩ | ⟨o, ho, d, rfl, hp⟩)
      · exact ⟨some d, List.mem_append.mpr (Or.inl (List.mem_map.mpr ⟨d, hd, rfl⟩)), hp⟩
      · exact ⟨some d, List.mem_append.mpr (Or.inr ho), hp⟩
  have h010 : (s010Items path ln (pos ++ args ++ kwonly ++ va.toList ++ kw.toList)).countP
      (fun r => r.code == "S012") = 0 := by
    rw [List.countP_eq_zero]
    intro r hr
    simp [mem_s010Items_code hr]
  have h011 : (((walk_without_nested_scopes body).flatMap (s011ItemsOf path)).countP
      (fun r => r.code == "S012")) = 0 := by
    rw [List.countP_eq_zero]
    intro r hr
    rcases List.mem_flatMap.mp hr with ⟨inner, _, hin⟩
    simp [mem_s011ItemsOf_code hin]
  have hsplit : funcItems path (.functionDef name pos args kwonly va kw dfs kwdfs body ln async) =
      (s010Items path ln (pos ++ args ++ kwonly ++ va.toList ++ kw.toList) ++
      s012Items path ln ((dfs.map some ++ kwdfs).any fun o =>
        match o with
        | some d => isMutableLiteral d
        | none => false)) ++
        (walk_without_nested_scopes body).flatMap (s011ItemsOf path) := rfl
  have hcount : (funcItems path
      (.functionDef name pos args kwonly va kw dfs kwdfs body ln async)).countP
        (fun r => r.code == "S012") =
      (s012Items path ln ((dfs.map some ++ kwdfs).any fun o =>
        match o with
        | some d => isMutableLiteral d
        | none => false)).countP (fun r => r.code == "S012") := by
    rw [hsplit, List.countP_append, List.countP_append, h010, h011]
    omega
  refine ⟨?_, ?_, ?_⟩
  · intro hc
    rw [hcount, hflag.mpr hc]
    simp [s012Items]
  · intro hc
    have hf : ((dfs.map some ++ kwdfs).any fun o =>
        match o with
        | some d => isMutableLiteral d
        | none => false) = false := by
      cases hv : ((dfs.map some ++ kwdfs).any fun o =>
          match o with
          | some d => isMutableLiteral d
          | none => false)
      · rfl
      · exact absurd (hflag.mp hv) hc
    rw [hcount, hf]
    simp [s012Items]
  · intro r hr h12
    rw [hsplit] at hr
    rcases List.mem_append.mp hr with h | h
    · rcases List.mem_append.mp h with h | h
      · exact absurd ((mem_s010Items_code h).symm.trans h12) (by decide)
      · rw [mem_s012Items h]
    · rcases List.mem_flatMap.mp h with ⟨inner, _, hin⟩
      exact absurd ((mem_s011ItemsOf_code hin).symm.trans h12) (by decide)

theorem c4_witness :
    (((∃ d ∈ [Node.listE [], Node.dictE []], isMutableLiteral d = true) ∨
      (∃ o ∈ ([] : List (Option Node)), ∃ d, o = some d ∧ isMutableLiteral d = true))) ∧
    (funcItems "m.py" (.functionDef "f" [] ["a", "b"] [] none none
        [Node.listE [], Node.dictE []] [] [.passStmt] 1 false)).countP
      (fun r => r.code == "S012") = 1 := by
  have hc : ((∃ d ∈ [Node.listE [], Node.dictE []], isMutableLiteral d = true) ∨
      (∃ o ∈ ([] : List (Option Node)), ∃ d, o = some d ∧ isMutableLiteral d = true)) :=
    Or.inl ⟨Node.listE [], by simp, rfl⟩
  exact ⟨hc, (c4_mutable_default_once "m.py" "f" [] ["a", "b"] [] none none
    [Node.listE [], Node.dictE []] [] [.passStmt] 1 false).1 hc⟩

/-! ## Claim C10: assignment-target expansion -/

/-- The names reachable from an assignment target through plain name targets
and tuple/list destructuring only (arbitrary nesting). -/
inductive BindsName : Node → String → Prop
  | name (id : String) : BindsName (.nameE id) id
  | tup {elts : List Node} {e : Node} {id : String} :
      e ∈ elts → BindsName e id → BindsName (.tupleE elts) id
  | lst {elts : List Node} {e : Node} {id : String} :
      e ∈ elts → BindsName e id → BindsName (.listE elts) id

theorem mem_extractNamesList {l : List Node} {nm : String} :
    nm ∈ extractNamesList l ↔ ∃ e ∈ l, nm ∈ extract_assigned_names e := by
  induction l with
  | nil => simp [extractNamesList]
  | cons e es ih => simp [extractNamesList, ih]

theorem nodeSize_le_of_mem {e : Node} {l : List Node} (h : e ∈ l) :
    nodeSize e ≤ nodeSizeList l := by
  induction l with
  | nil => simp at h
  | cons x xs ih =>
    rcases List.mem_cons.mp h with rfl | hm
    · simp [nodeSizeList]
    · have := ih hm
      simp [nodeSizeList]
      omega

theorem extract_imp_binds :
    ∀ N, ∀ t : Node, nodeSize t ≤ N → ∀ nm, nm ∈ extract_assigned_names t → BindsName t nm := by
  intro N
  induction N with
  | zero => intro t ht; have := nodeSize_pos t; omega
  | succ N ih =>
    intro t ht nm hnm
    cases t with
    | nameE nid =>
      simp [extract_assigned_names] at hnm
      subst hnm
      exact .name nm
    | tupleE elts =>
      rw [show extract_assigned_names (.tupleE elts) = extractNamesList elts from rfl] at hnm
      rcases mem_extractNamesList.mp hnm with ⟨e, he, hmem⟩
      have hsz : nodeSize e ≤ N := by
        have h1 := nodeSize_le_of_mem he
        have h2 : nodeSize (.tupleE elts) = 1 + nodeSizeList elts := rfl
        omega
      exact .tup he (ih e hsz nm hmem)
    | listE elts =>
      rw [show extract_assigned_names (.listE elts) = extractNamesList elts from rfl] at hnm
      rcases mem_extractNamesList.mp hnm with ⟨e, he, hmem⟩
      have hsz : nodeSize e ≤ N := by
        have h1 := nodeSize_le_of_mem he
        have h2 : nodeSize (.listE elts) = 1 + nodeSizeList elts := rfl
        omega
      exact .lst he (ih e hsz nm hmem)
    | module body => simp [extract_assigned_names] at hnm
    | functionDef a b c d e f g h i j k => simp [extract_assigned_names] at hnm
    | classDef a b c => simp [extract_assigned_names] at hnm
    | assign a b c => simp [extract_assigned_names] at hnm
    | annAssign a b c d => simp [extract_assigned_names] at hnm
    | augAssign a b c => simp [extract_assigned_names] at hnm
    | exprStmt a => simp [extract_assigned_names] at hnm
    | ifStmt a b c => simp [extract_assigned_names] at hnm
    | passStmt => simp [extract_assigned_names] at hnm
    | dictE a => simp [extract_assigned_names] at hnm
    | setE a => simp [extract_assigned_names] at hnm
    | lambdaE a => simp [extract_assigned_names] at hnm
    | attributeE a b => simp [extract_assigned_names] at hnm
    | subscriptE a b => simp [extract_assigned_names] at hnm
    | starredE a => simp [extract_assigned_names] at hnm
    | constE => simp [extract_assigned_names] at hnm

theorem binds_imp_extract {t : Node} {nm : String} (h : BindsName t nm) :
    nm ∈ extract_assigned_names t := by
  induction h with
  | name id => simp [extract_assigned_names]
  | tup he _ ih =>
    rw [show extract_assigned_names (.tupleE _) = extractNamesList _ from rfl]
    exact mem_extractNamesList.mpr ⟨_, he, ih⟩
  | lst he _ ih =>
    rw [show extract_assigned_names (.listE _) = extractNamesList _ from rfl]
    exact mem_extractNamesList.mpr ⟨_, he, ih⟩

/-- C10: target expansion yields exactly the names reachable through plain
name targets and tuple/list destructuring; attribute, subscript and starred
targets (even inside a tuple target) contribute no names, so an assignment
whose targets expand to nothing produces no S011 finding at all. -/
theorem c10_target_expansion :
    (∀ t nm, nm ∈ extract_assigned_names t ↔ BindsName t nm) ∧
    (∀ v a, extract_assigned_names (.attributeE v a) = []) ∧
    (∀ v s, extract_assigned_names (.subscriptE v s) = []) ∧
    (∀ v, extract_assigned_names (.starredE v) = []) ∧
    (∀ v x, extract_assigned_names (.tupleE [.starredE v, .nameE x]) = [x]) ∧
    (∀ path ln targets value, (∀ t ∈ targets, extract_assigned_names t = []) →
      s011ItemsOf path (.assign targets value ln) = []) := by
  refine ⟨fun t nm => ⟨fun h => extract_imp_binds (nodeSize t) t le_rfl nm h,
    binds_imp_extract⟩, fun v a => rfl, fun v s => rfl, fun v => rfl,
    fun v x => rfl, ?_⟩
  intro path ln targets value hempty
  show s011Targets path ln targets = []
  unfold s011Targets
  rw [List.flatMap_eq_nil_iff]
  intro t ht
  rw [hempty t ht]
  rfl

theorem c10_witness :
    (∀ t ∈ [Node.attributeE (.nameE "self") "BadAttr",
            Node.subscriptE (.nameE "Arr") (.nameE "I"),
            Node.starredE (.nameE "BadStar")],
      extract_assigned_names t = []) ∧
    s011ItemsOf "p.py"
      (.assign [Node.attributeE (.nameE "self") "BadAttr",
                Node.subscriptE (.nameE "Arr") (.nameE "I"),
                Node.starredE (.nameE "BadStar")] .constE 5) = [] := by
  have h : ∀ t ∈ [Node.attributeE (.nameE "self") "BadAttr",
      Node.subscriptE (.nameE "Arr") (.nameE "I"),
      Node.starredE (.nameE "BadStar")], extract_assigned_names t = [] := by
    intro t ht
    rcases List.mem_cons.mp ht with rfl | ht
    · rfl
    rcases List.mem_cons.mp ht with rfl | ht
    · rfl
    rcases List.mem_cons.mp ht with rfl | ht
    · rfl
    · simp at ht
  exact ⟨h, c10_target_expansion.2.2.2.2.2 "p.py" 5 _ .constE h⟩

/-! ## Claim C7: the consecutive-blank-line rule -/

theorem check_s001_code {raw c : String} (h : check_s001 raw = some c) : c = "S001" := by
  unfold check_s001 at h
  split at h <;> simp_all

theorem check_s002_code {raw c : String} (h : check_s002 raw = some c) : c = "S002" := by
  unfold check_s002 at h
  split at h <;> simp_all

theorem check_s003_code {cp c : String} (h : check_s003 cp = some c) : c = "S003" := by
  unfold check_s003 at h
  split at h <;> simp_all

theorem check_s004_code {cp : String} {col : Int} {c : String}
    (h : check_s004 cp col = some c) : c = "S004" := by
  unfold check_s004 at h
  split at h <;> simp_all

theorem check_s005_code {cm c : String} (h : check_s005 cm = some c) : c = "S005" := by
  unfold check_s005 at h
  split at h <;> simp_all

theorem check_s006_eq (b : Nat) (raw : String) :
    check_s006 b raw = if isBlank raw = false ∧ 2 < b then some "S006" else none := rfl

theorem mem_s007s008s009_code {raw : String} {p : String × Fmt}
    (h : p ∈ check_s007_s008_s009 raw) :
    p.1 = "S007" ∨ p.1 = "S008" ∨ p.1 = "S009" := by
  unfold check_s007_s008_s009 at h
  split at h
  · rcases List.mem_append.mp h with h' | h' <;> (split at h' <;> simp_all)
  · split at h
    · rcases List.mem_append.mp h with h' | h' <;> (split at h' <;> simp_all)
    · simp at h

theorem countP_optPair_ne (o : Option String) (c : String)
    (h : ∀ x, o = some x → x ≠ c) : (optPair o).countP (fun p => p.1 == c) = 0 := by
  cases o with
  | none => rfl
  | some x => simp [optPair, List.countP_cons, h x rfl]

theorem countP_s006_raw (raw : String) (b : Nat) :
    (lineFindingsRaw raw b).countP (fun p => p.1 == "S006") =
      if isBlank raw = false ∧ 2 < b then 1 else 0 := by
  have hhdr : (check_s007_s008_s009 raw).countP (fun p => p.1 == "S006") = 0 := by
    rw [List.countP_eq_zero]
    intro p hp
    rcases mem_s007s008s009_code hp with h | h | h <;> simp [h]
  have h6 : (optPair (check_s006 b raw)).countP (fun p => p.1 == "S006") =
      if isBlank raw = false ∧ 2 < b then 1 else 0 := by
    rw [check_s006_eq]
    split <;> simp [optPair]
  unfold lineFindingsRaw
  simp only [List.countP_append]
  rw [countP_optPair_ne (check_s001 raw) "S006" (fun x hx => by simp [check_s001_code hx]),
    countP_optPair_ne (check_s002 raw) "S006" (fun x hx => by simp [check_s002_code hx]),
    countP_optPair_ne (check_s003 (split_code_and_comment raw).1) "S006"
      (fun x hx => by simp [check_s003_code hx]),
    countP_optPair_ne (check_s004 (split_code_and_comment raw).1
        (split_code_and_comment raw).2.2) "S006"
      (fun x hx => by simp [check_s004_code hx]),
    countP_optPair_ne (check_s005 (split_code_and_comment raw).2.1) "S006"
      (fun x hx => by simp [check_s005_code hx]),
    hhdr, h6]
  split <;> omega

theorem countP_uniqByCode (c : String) (l : List (String × Fmt)) :
    (uniqByCode l).countP (fun p => p.1 == c) =
      min (l.countP (fun p => p.1 == c)) 1 := by
  induction l with
  | nil => simp [uniqByCode]
  | cons x rest ih =>
    by_cases hx : x.1 = c
    · have hfull : ((uniqByCode rest).filter (fun y => y.1 ≠ x.1)).countP
          (fun p => p.1 == c) = 0 := by
        rw [List.countP_eq_zero]
        intro p hp
        have hne := (List.mem_filter.mp hp).2
        simp only [ne_eq, decide_not, Bool.not_eq_true', decide_eq_false_iff_not] at hne
        rw [hx] at hne
        simp [hne]
      have hx' : (x.1 == c) = true := by simp [hx]
      simp only [uniqByCode, List.countP_cons, hfull, hx', if_true]
      omega
    · have hc' : c ≠ x.1 := fun h => hx h.symm
      have hfilter : ((uniqByCode rest).filter (fun y => y.1 ≠ x.1)).countP
          (fun p => p.1 == c) = (uniqByCode rest).countP (fun p => p.1 == c) := by
        rw [List.countP_filter]
        apply List.countP_congr
        intro p _
        by_cases hp : p.1 = c
        · rw [hp]
          simp [hc']
        · simp [hp]
      have hx' : (x.1 == c) = false := by simp [hx]
      simp only [uniqByCode, List.countP_cons, hfilter, ih, hx']
      have hz : (if (false : Bool) = true then 1 else 0) = 0 := by simp
      omega

theorem countP_s006_findIssues (raw : String) (b : Nat) :
    (find_issues_for_line raw b).countP (fun p => p.1 == "S006") =
      if isBlank raw = false ∧ 2 < b then 1 else 0 := by
  unfold find_issues_for_line
  rw [(List.perm_insertionSort pairLE _).countP_eq, countP_uniqByCode, countP_s006_raw]
  split <;> simp

/-- The blank-run counter before line `i` (0-based), per the claim's own
semantics: starts at `init`, resets to zero on a non-blank line, increments
on each blank line. -/
def blanksAt (init : Nat) : List String → Nat → Nat
  | _, 0 => init
  | [], _ + 1 => init
  | l :: ls, i + 1 => blanksAt (if isBlank l then init + 1 else 0) ls i

theorem scanLines_line_ge (path : String) :
    ∀ (ls : List String) (ln b : Nat), ∀ r ∈ scanLines path ls ln b, ln ≤ r.line_number := by
  intro ls
  induction ls with
  | nil => intro ln b r hr; simp [scanLines] at hr
  | cons l ls ih =>
    intro ln b r hr
    unfold scanLines at hr
    rcases List.mem_append.mp hr with h | h
    · rcases List.mem_map.mp h with ⟨cf, _, rfl⟩
      simp
    · have := ih (ln + 1) _ r h
      omega

theorem scanLines_s006_count (path : String) :
    ∀ (lines : List String) (ln b i : Nat) (h : i < lines.length),
    (scanLines path lines ln b).countP
        (fun r => r.line_number == ln + i && r.code == "S006") =
      if isBlank (lines.get ⟨i, h⟩) = false ∧ 2 < blanksAt b lines i then 1 else 0 := by
  intro lines
  induction lines with
  | nil => intro ln b i h; simp at h
  | cons l ls ih =>
    intro ln b i h
    cases i with
    | zero =>
      unfold scanLines
      rw [List.countP_append, List.countP_map]
      have htail : (scanLines path ls (ln + 1) (if isBlank l then b + 1 else 0)).countP
          (fun r => r.line_number == ln + 0 && r.code == "S006") = 0 := by
        rw [List.countP_eq_zero]
        intro r hr
        have hge := scanLines_line_ge path ls (ln + 1) _ r hr
        simp only [Bool.and_eq_true, beq_iff_eq, not_and]
        intro hln
        omega
      rw [htail]
      have hcong : List.countP
          ((fun r : ReportItem => r.line_number == ln + 0 && r.code == "S006") ∘
            (fun cf : String × Fmt =>
              ReportItem.mk path ln cf.1 (applyFmt (MESSAGES cf.1) cf.2)))
          (find_issues_for_line l b) =
          (find_issues_for_line l b).countP (fun p => p.1 == "S006") := by
        apply List.countP_congr
        intro p _
        simp [Function.comp]
      rw [hcong, countP_s006_findIssues]
      simp only [blanksAt, List.get]
      omega
    | succ i =>
      unfold scanLines
      rw [List.countP_append, List.countP_map]
      have hhead : List.countP
          ((fun r : ReportItem => r.line_number == ln + (i + 1) && r.code == "S006") ∘
            (fun cf : String × Fmt =>
              ReportItem.mk path ln cf.1 (applyFmt (MESSAGES cf.1) cf.2)))
          (find_issues_for_line l b) = 0 := by
        rw [List.countP_eq_zero]
        intro p _
        simp only [Function.comp_apply, Bool.and_eq_true, beq_iff_eq, not_and]
        intro hln
        omega
      rw [hhead]
      have harith : ln + (i + 1) = (ln + 1) + i := by omega
      rw [harith]
      have h' : i < ls.length := by simpa using h
      rw [ih (ln + 1) (if isBlank l then b + 1 else 0) i h']
      simp only [blanksAt, List.get]
      omega

/-- C7: scanning physical lines from line 1 with a zero blank-run counter, a
line triggers S006 (exactly once) precisely when it is non-blank and the
blank-run counter before it -- which starts at zero, resets to zero on any
non-blank line and increments by one on each blank line -- exceeds two. -/
theorem c7_blank_line_runs (path : String) (lines : List String) (i : Nat)
    (h : i < lines.length) :
    (scanLines path lines 1 0).countP
        (fun r => r.line_number == 1 + i && r.code == "S006") =
      if isBlank (lines.get ⟨i, h⟩) = false ∧ 2 < blanksAt 0 lines i then 1 else 0 :=
  scanLines_s006_count path lines 1 0 i h

theorem c7_witness :
    (scanLines "w.py" ["\n", "\n", "\n", "x = 1\n"] 1 0).countP
        (fun r => r.line_number == 1 + 3 && r.code == "S006") = 1 ∧
    (scanLines "w.py" ["\n", "\n", "y = 2\n"] 1 0).countP
        (fun r => r.line_number == 1 + 2 && r.code == "S006") = 0 := by
  constructor
  · have h := c7_blank_line_runs "w.py" ["\n", "\n", "\n", "x = 1\n"] 3 (by decide)
    rw [if_pos (by decide)] at h
    exact h
  · have h := c7_blank_line_runs "w.py" ["\n", "\n", "y = 2\n"] 2 (by decide)
    rw [if_neg (by decide)] at h
    exact h

/-! ## Claim C5: the comment splitter -/

/-- Characters that keep the scan outside any string literal: not a comment
marker, not a quote, not a backslash, not a newline (brackets and all other
characters are allowed). -/
def plainOutsideStr (c : Char) : Prop :=
  c ≠ '#' ∧ c ≠ '"' ∧ c ≠ '\'' ∧ c ≠ '\\' ∧ c ≠ '\n'

/-- Characters allowed as content of a double-quoted single-line string
literal without ending or escaping it; `#` is allowed. -/
def plainInsideStr (c : Char) : Prop := c ≠ '"' ∧ c ≠ '\\' ∧ c ≠ '\n'

instance (c : Char) : Decidable (plainOutsideStr c) :=
  inferInstanceAs (Decidable (c ≠ '#' ∧ c ≠ '"' ∧ c ≠ '\'' ∧ c ≠ '\\' ∧ c ≠ '\n'))

instance (c : Char) : Decidable (plainInsideStr c) :=
  inferInstanceAs (Decidable (c ≠ '"' ∧ c ≠ '\\' ∧ c ≠ '\n'))

theorem normalStep_plain {c : Char} (d : Nat) (h : plainOutsideStr c) :
    normalStep d c = .fail ∨ ∃ d', normalStep d c = .st (.normal d') := by
  obtain ⟨h1, h2, h3, h4, h5⟩ := h
  simp only [normalStep, h1, h2, h3, h4, beq_iff_eq, if_false, Bool.or_eq_true, or_self,
    Bool.false_eq_true]
  by_cases ho : isOpenBracket c
  · simp [ho]
  · by_cases hc : isCloseBracket c
    · by_cases hd : d = 0
      · simp [ho, hc, hd]
      · simp [ho, hc, hd]
    · simp [ho, hc]

theorem scan_normal_append (pre : List Char) (h : ∀ c ∈ pre, plainOutsideStr c) :
    ∀ (rest : List Char) (col d : Nat),
      scan (pre ++ rest) col (.normal d) = ScanOut.failed ∨
      ∃ d', scan (pre ++ rest) col (.normal d) = scan rest (col + pre.length) (.normal d') := by
  induction pre with
  | nil => intro rest col d; right; exact ⟨d, by simp⟩
  | cons c cs ih =>
    intro rest col d
    rcases normalStep_plain d (h c (by simp)) with hf | ⟨d', hd'⟩
    · left
      simp [scan, charStep, hf]
    · have hstep : scan ((c :: cs) ++ rest) col (.normal d) =
          scan (cs ++ rest) (col + 1) (.normal d') := by
        simp [scan, charStep, hd']
      rcases ih (fun x hx => h x (by simp [hx])) (rest) (col + 1) d' with hf' | ⟨d'', hd''⟩
      · left; rw [hstep, hf']
      · right
        refine ⟨d'', ?_⟩
        rw [hstep, hd'']
        congr 1
        simp
        omega

theorem scan_sgl_append (q : Char) (mid : List Char)
    (h : ∀ c ∈ mid, c ≠ q ∧ c ≠ '\\' ∧ c ≠ '\n') :
    ∀ (rest : List Char) (col d : Nat),
      scan (mid ++ rest) col (.sgl d q) = scan rest (col + mid.length) (.sgl d q) := by
  induction mid with
  | nil => intro rest col d; simp
  | cons c cs ih =>
    intro rest col d
    obtain ⟨h1, h2, h3⟩ := h c (by simp)
    have hstep : scan ((c :: cs) ++ rest) col (.sgl d q) =
        scan (cs ++ rest) (col + 1) (.sgl d q) := by
      simp [scan, charStep, h1, h2, h3]
    rw [hstep, ih (fun x hx => h x (by simp [hx])) rest (col + 1) d]
    congr 1
    simp
    omega

theorem split_col_neg_of_not_comment (line : String)
    (h : ∀ col, scan line.data 0 (.normal 0) ≠ .comment col) :
    (split_code_and_comment line).2.2 = -1 := by
  unfold split_code_and_comment
  rcases hs : scan line.data 0 (.normal 0) with col | _ | _
  · exact absurd hs (h col)
  · simp
  · simp

/-- C5: the comment splitter (a pure function of its input line) degrades
gracefully on a line the tokenizer cannot lex -- the whole
terminator-stripped line becomes the code part, the comment part is empty
and the column is the `-1` sentinel -- and a `#` inside a string literal is
never taken as a comment marker: every line of the shape
`pre "mid" post` whose `mid` contains `#` but no quote/escape/newline, and
whose `pre`/`post` contain no comment marker, quote, escape or newline at
all, is classified as having no comment. -/
theorem c5_comment_splitter :
    (∀ line : String, scan line.data 0 (.normal 0) = ScanOut.failed →
      split_code_and_comment line = (rstripNL line, "", -1)) ∧
    (∀ pre mid post : List Char, (∀ c ∈ pre, plainOutsideStr c) →
      (∀ c ∈ mid, plainInsideStr c) → '#' ∈ mid → (∀ c ∈ post, plainOutsideStr c) →
      (split_code_and_comment ⟨pre ++ '"' :: (mid ++ '"' :: post)⟩).2.2 = -1) := by
  constructor
  · intro line hfail
    unfold split_code_and_comment
    rw [hfail]
  · intro pre mid post hpre hmid hhash hpost
    apply split_col_neg_of_not_comment
    intro col
    show scan (pre ++ '"' :: (mid ++ '"' :: post)) 0 (.normal 0) ≠ .comment col
    rcases scan_normal_append pre hpre ('"' :: (mid ++ '"' :: post)) 0 0 with hf | ⟨d', hd'⟩
    · rw [hf]; intro hc; cases hc
    · rw [hd']
      rcases hm : mid with _ | ⟨m, mid'⟩
      · rw [hm] at hhash; cases hhash
      · have hq : scan ('"' :: ((m :: mid') ++ '"' :: post)) (0 + pre.length) (.normal d') =
            scan ((m :: mid') ++ '"' :: post) (0 + pre.length + 1) (.open1 d' '"') := by
          simp [scan, charStep, normalStep]
        rw [hq]
        obtain ⟨g1, g2, g3⟩ := hmid m (by simp [hm])
        have hq2 : scan ((m :: mid') ++ '"' :: post) (0 + pre.length + 1) (.open1 d' '"') =
            scan (mid' ++ '"' :: post) (0 + pre.length + 1 + 1) (.sgl d' '"') := by
          simp [scan, charStep, g1, g2, g3]
        rw [hq2]
        have hmid' : ∀ c ∈ mid', c ≠ '"' ∧ c ≠ '\\' ∧ c ≠ '\n' :=
          fun c hc => hmid c (by simp [hm, hc])
        rw [scan_sgl_append '"' mid' hmid' ('"' :: post) _ d']
        have hq3 : scan ('"' :: post) (0 + pre.length + 1 + 1 + mid'.length) (.sgl d' '"') =
            scan post (0 + pre.length + 1 + 1 + mid'.length + 1) (.normal d') := by
          simp [scan, charStep]
        rw [hq3]
        have hpost' := scan_normal_append post hpost []
          (0 + pre.length + 1 + 1 + mid'.length + 1) d'
        rw [List.append_nil] at hpost'
        rcases hpost' with hf2 | ⟨d'', hd''⟩
        · rw [hf2]; intro hc; cases hc
        · rw [hd'']
          show scan [] _ (.normal d'') ≠ _
          simp only [scan]
          rcases d'' with _ | d3
          · intro hc; cases hc
          · intro hc; cases hc

theorem c5_witness :
    (split_code_and_comment "y = \"a#b\"").2.2 = -1 ∧
    split_code_and_comment "x = 'abc" = ("x = 'abc", "", -1) := by
  constructor
  · have h := c5_comment_splitter.2 "y = ".data "a#b".data [] (by decide) (by decide)
      (by decide) (by decide)
    have he : ("y = \"a#b\"" : String) = ⟨"y = ".data ++ '"' :: ("a#b".data ++ '"' :: [])⟩ := by
      decide
    rw [he]
    exact h
  · exact c5_comment_splitter.1 "x = 'abc" (by decide)

/-! ## Claim C9: the aggregator / reporter -/

theorem itemLE_iff_lex (a b : ReportItem) :
    itemLE a b ↔ (a.file_path < b.file_path ∨ (a.file_path = b.file_path ∧
      (a.line_number < b.line_number ∨ (a.line_number = b.line_number ∧
      (a.code < b.code ∨ (a.code = b.code ∧ a.message ≤ b.message)))))) := by
  unfold itemLE itemKey
  rw [Prod.Lex.le_iff]
  simp only []
  constructor
  · rintro (h | ⟨h1, h2⟩)
    · exact Or.inl h
    · refine Or.inr ⟨h1, ?_⟩
      rw [Prod.Lex.le_iff] at h2
      rcases h2 with h | ⟨h2, h3⟩
      · exact Or.inl h
      · refine Or.inr ⟨h2, ?_⟩
        rw [Prod.Lex.le_iff] at h3
        exact h3
  · rintro (h | ⟨h1, h2⟩)
    · exact Or.inl h
    · refine Or.inr ⟨h1, ?_⟩
      rw [Prod.Lex.le_iff]
      rcases h2 with h | ⟨h2, h3⟩
      · exact Or.inl h
      · exact Or.inr ⟨h2, (Prod.Lex.le_iff _ _).mpr h3⟩

theorem analyze_file_ok {f : PyFile} {d : FileData} (ho : f.readResult = some d) :
    analyze_file f = Except.ok (fileFindings f) := by
  have hval : analyze_file f =
      Except.ok (scanLines f.path d.lines 1 0 ++ analyze_ast_issues f.path f.readResult) := by
    unfold analyze_file
    rw [ho]
  rw [hval]
  unfold fileFindings
  rw [hval]

theorem analyzeAll_ok (files : List PyFile) (h : ∀ f ∈ files, f.readResult.isSome = true) :
    analyzeAll files = Except.ok (files.flatMap fileFindings) := by
  induction files with
  | nil => rfl
  | cons f fs ih =>
    rcases ho : f.readResult with _ | d
    · have := h f (by simp)
      rw [ho] at this
      cases this
    · unfold analyzeAll
      rw [analyze_file_ok ho, ih (fun g hg => h g (by simp [hg]))]
      simp

/-- C9: when every discovered file is readable, the emitted report is the
rendering of the concatenation of every scanned file's findings after one
global sort; that sort is a permutation (no finding dropped or merged) and
is sorted under `itemLE`, which is exactly the lexicographic order over
(file path, line number, rule code, message); each line is rendered as
`<file>: Line <n>: <code> <message>`.  Both scanners and the sort are pure
functions of the file contents, so repeated runs yield identical output. -/
theorem c9_aggregator (files : List PyFile) (h : ∀ f ∈ files, f.readResult.isSome = true) :
    analyzeAll files = Except.ok (files.flatMap fileFindings) ∧
    runReport files = Except.ok ((sortedReport (files.flatMap fileFindings)).map renderItem) ∧
    List.Perm (sortedReport (files.flatMap fileFindings)) (files.flatMap fileFindings) ∧
    List.Sorted itemLE (sortedReport (files.flatMap fileFindings)) ∧
    (∀ a b, itemLE a b ↔ (a.file_path < b.file_path ∨ (a.file_path = b.file_path ∧
      (a.line_number < b.line_number ∨ (a.line_number = b.line_number ∧
      (a.code < b.code ∨ (a.code = b.code ∧ a.message ≤ b.message))))))) ∧
    (∀ r, renderItem r =
      r.file_path ++ ": Line " ++ toString r.line_number ++ ": " ++ r.code ++ " " ++ r.message) := by
  have h1 := analyzeAll_ok files h
  refine ⟨h1, ?_, List.perm_insertionSort itemLE _, List.sorted_insertionSort itemLE _,
    itemLE_iff_lex, fun r => rfl⟩
  unfold runReport
  rw [h1]

def c9File : PyFile :=
  { path := "b.py", readResult := some { lines := ["x = ;"], parsed := none } }

theorem c9_witness :
    runReport [c9File] = Except.ok ["b.py: Line 1: S003 Unnecessary semicolon"] := by
  have h := (c9_aggregator [c9File] (by decide)).2.1
  rw [h]
  rfl
